import Mathlib

/-!
Verification development for the OmniExtract Pro batch phone-number
extraction application.

The definitions below are shallow embeddings of the application's source:

* `extractAndFormatNumbers` embeds `src/utils/imageProcessing.ts`
  (the India-specific number matcher based on the JavaScript regex
  `(?:(?:\+|0{0,2})91[\s-]?)?([6789][\s-]?\d[\s-]?\d[\s-]?\d[\s-]?\d[\s-]?\d[\s-]?\d[\s-]?\d[\s-]?\d[\s-]?\d)`
  applied with `String.prototype.matchAll`, followed by digit
  stripping, the exact-length-10 guard, `91` prefixing, and `Set`
  deduplication).
* `generateCSV` embeds `src/utils/csv.ts`.
* `AppState`, `processAll`, `handleDownload`, `clearAll` embed the
  state and handlers of `src/App.tsx`.  The external collaborators
  (image preprocessing and the OCR service) are modelled by the
  `ocrResult` field of a queue item: `some text` is the text the OCR
  stage would return for that image, `none` models a throw from either
  `preprocessImage` or `performOCR`.
-/

namespace OmniExtract

/-- Character class `\d` of JavaScript regexes: the ASCII digits. -/
def isDigitC (c : Char) : Bool := '0' ≤ c && c ≤ '9'

/-- Character class `[\s-]` of the matcher regex: a hyphen or a
(JavaScript `\s`) whitespace character.  The ASCII whitespace
characters are listed; the inputs of this development are ASCII. -/
def isSepC (c : Char) : Bool :=
  c = '-' || c = ' ' || c = '\t' || c = '\n' || c = '\r' || c = '\x0b' || c = '\x0c'

/-- Character class `[6789]`: the admissible first significant digit of
an Indian mobile number. -/
def isLeadC (c : Char) : Bool := c = '6' || c = '7' || c = '8' || c = '9'

/-- Matcher for `([\s-]?\d){k}` with JavaScript backtracking semantics.
The greedy `[\s-]?` first tries to consume a separator; that branch
then requires a digit.  Backtracking to the empty separator would make
`\d` face the separator character itself, which always fails, so the
sep-then-digit commitment is exact.  Returns the consumed characters
and the rest of the input. -/
def trySepDigits : Nat → List Char → Option (List Char × List Char)
  | 0, cs => some ([], cs)
  | _ + 1, [] => none
  | k + 1, c :: cs =>
    if isSepC c then
      match cs with
      | [] => none
      | d :: cs2 =>
        if isDigitC d then
          (trySepDigits k cs2).map (fun pr => (c :: d :: pr.1, pr.2))
        else none
    else if isDigitC c then
      (trySepDigits k cs).map (fun pr => (c :: pr.1, pr.2))
    else none

/-- Matcher for the capture group `([6789]([\s-]?\d){9})`.  Returns the
captured characters (the value of `match[1]` in the source) and the
rest of the input. -/
def tryCapture (cs : List Char) : Option (List Char × List Char) :=
  match cs with
  | [] => none
  | c :: rest =>
    if isLeadC c then
      (trySepDigits 9 rest).map (fun pr => (c :: pr.1, pr.2))
    else none

/-- Matcher for `[\s-]?` followed by the capture group, as it appears
after the literal country-code part `91` of the optional prefix.  The
greedy separator branch keeps its backtracking alternative (which can
never succeed, since a separator is not in `[6789]`). -/
def afterCC (cs : List Char) : Option (List Char × List Char) :=
  match cs with
  | [] => none
  | c :: rest =>
    if isSepC c then (tryCapture rest).orElse (fun _ => tryCapture (c :: rest))
    else tryCapture (c :: rest)

/-- The literal alternatives of the optional prefix
`(?:\+|0{0,2})91`, in the order the JavaScript engine tries them
(`\+` first, then `0{0,2}` greedily with two, one, zero zeros).  At
most one alternative can match at a given position, because the
leading characters of the four literals are pairwise incompatible. -/
def ccRest? (cs : List Char) : Option (List Char) :=
  match cs with
  | '+' :: '9' :: '1' :: rest => some rest
  | '0' :: '0' :: '9' :: '1' :: rest => some rest
  | '0' :: '9' :: '1' :: rest => some rest
  | '9' :: '1' :: rest => some rest
  | _ => none

/-- One attempt of the whole regex at the current position.  If a
literal country-code prefix matches but the remainder fails, the
engine backtracks to the empty prefix and retries the bare capture
group at the same position (the `orElse`).  Returns the capture and
the input following the full match (the full match ends with the
capture group, so this is also where scanning resumes). -/
def tryMatchAt (cs : List Char) : Option (List Char × List Char) :=
  match ccRest? cs with
  | some rest => (afterCC rest).orElse (fun _ => tryCapture cs)
  | none => tryCapture cs

/-- Global scan of `String.prototype.matchAll`: try the regex at each
position from left to right; on a match, record the capture and resume
after the match.  `fuel` bounds the recursion; every match consumes at
least one character, so `fuel = cs.length` is always sufficient. -/
def scanAux : Nat → List Char → List (List Char)
  | 0, _ => []
  | _ + 1, [] => []
  | fuel + 1, c :: rest =>
    match tryMatchAt (c :: rest) with
    | some pr => pr.1 :: scanAux fuel pr.2
    | none => scanAux fuel rest

/-- All captures of the matcher regex over the text, in match order
(the values of `match[1]` produced by `text.matchAll(regex)`). -/
def captures (text : String) : List (List Char) :=
  scanAux text.toList.length text.toList

/-- The per-match body of the source loop: strip all non-digit
characters (`match[1].replace(/\D/g, '')`), keep the match only if
exactly 10 digits remain, and prefix the fixed country code `91`. -/
def formatCapture (cap : List Char) : Option String :=
  let clean := cap.filter isDigitC
  if clean.length = 10 then some ("91" ++ String.mk clean) else none

/-- Order-preserving first-occurrence deduplication, the behaviour of
`Array.from(new Set(results))` in the source. -/
def dedupAux (seen : List String) : List String → List String
  | [] => []
  | x :: xs => if x ∈ seen then dedupAux seen xs else x :: dedupAux (x :: seen) xs

/-- Deduplicate a list of strings keeping first occurrences. -/
def dedupFirst (l : List String) : List String := dedupAux [] l

/-- Embedding of `extractAndFormatNumbers` from
`src/utils/imageProcessing.ts`: scan the text with the matcher regex,
normalize each capture, and deduplicate. -/
def extractAndFormatNumbers (text : String) : List String :=
  dedupFirst ((captures text).filterMap formatCapture)

/-- Embedding of `generateCSV` from `src/utils/csv.ts`: the body of the
`forEach` callback, which appends one line `(index+1),num\n` to the
accumulated string and advances the index. -/
def csvStep (acc : String × Nat) (num : String) : String × Nat :=
  (acc.1 ++ toString (acc.2 + 1) ++ "," ++ num ++ "\n", acc.2 + 1)

/-- Embedding of `generateCSV` from `src/utils/csv.ts`: start from the
header line and fold the `forEach` body over the input list. -/
def generateCSV (numbers : List String) : String :=
  (numbers.foldl csvStep ("Number,Phone Number\n", 0)).1

/-- Status of a queue item (`ProcessingFile.status` in `src/types.ts`). -/
inductive FileStatus
  | pending
  | processing
  | completed
  | error
deriving DecidableEq

/-- Embedding of the `ProcessingFile` interface of `src/types.ts` (one
uploaded image).  The `id` field (a `Math.random` tag used only as a
lookup key, assumed collision-free) and the `previewUrl` and `file`
blob references are not needed by any claim and are represented by the
file `name`.  `ocrResult` models the two external collaborators,
`preprocessImage` and `performOCR`, for this image: `some text` is the
OCR text, `none` models a throw from either stage. -/
structure ProcessingFile where
  name : String
  ocrResult : Option String
  status : FileStatus
  progress : Nat
  rawText : Option String
  error : Option String
deriving DecidableEq

/-- Embedding of the `ExtractedNumber` interface of `src/types.ts`
(without the `Math.random` display id, which no logic reads). -/
structure ExtractedNumber where
  original : String
  formatted : String
  sourceImage : String
deriving DecidableEq

/-- Embedding of the `DownloadHistory` interface of `src/types.ts`
(without the `Math.random` display id, which no logic reads). -/
structure DownloadHistory where
  filename : String
  timestamp : Nat
  count : Nat
  data : String
deriving DecidableEq

/-- The state of the `App` component in `src/App.tsx`. -/
structure AppState where
  files : List ProcessingFile
  isProcessing : Bool
  extractedNumbers : List ExtractedNumber
  history : List DownloadHistory
  downloadCount : Nat
deriving DecidableEq

/-- The initial component state of a fresh session (the `useState`
initial values of `src/App.tsx`, with nothing in local storage). -/
def initialState : AppState :=
  { files := [], isProcessing := false, extractedNumbers := [],
    history := [], downloadCount := 0 }

/-- The body of the `numbers.forEach` callback in `processAll`
(`src/App.tsx` lines 91-101): append a new entry for `num` unless an
entry with the same `formatted` value already exists in the batch
accumulator `a` or in the session result set `known`.  `original` is
set to `num` itself, as in the source ("Simplified for this context"). -/
def addNumber (known : List ExtractedNumber) (fname : String)
    (a : List ExtractedNumber) (num : String) : List ExtractedNumber :=
  if (a.find? (fun n => n.formatted == num)).isSome
      || (known.find? (fun n => n.formatted == num)).isSome then a
  else a ++ [{ original := num, formatted := num, sourceImage := fname }]

/-- The per-item body of the `processAll` loop (`src/App.tsx` lines
74-107): skip items already `completed`; on a throw from the
preprocess/OCR stages set status `error` with the fixed reason; on
success record the raw text, extract numbers, accumulate the new
unique ones, and mark the item `completed`.  The advisory intermediate
progress values (20/50/80) reported between stages are not modelled
(progress is advisory only and no claim concerns it); success sets the
final value 100. -/
def processItem (known : List ExtractedNumber) (acc : List ExtractedNumber)
    (f : ProcessingFile) : ProcessingFile × List ExtractedNumber :=
  if f.status = FileStatus.completed then (f, acc)
  else
    match f.ocrResult with
    | none =>
      ({ f with status := FileStatus.error,
                error := some "Failed to process image" }, acc)
    | some text =>
      let numbers := extractAndFormatNumbers text
      let acc2 := numbers.foldl (addNumber known f.name) acc
      ({ f with status := FileStatus.completed, progress := 100,
                rawText := some text }, acc2)

/-- The `for` loop of `processAll`: process the queue items strictly in
order, threading the batch accumulator `newExtracted`. -/
def runBatch (known : List ExtractedNumber) :
    List ProcessingFile → List ExtractedNumber →
    List ProcessingFile × List ExtractedNumber
  | [], acc => ([], acc)
  | f :: fs, acc =>
    let fa := processItem known acc f
    let rest := runBatch known fs fa.2
    (fa.1 :: rest.1, rest.2)

/-- Embedding of `processAll` from `src/App.tsx`: no-op when the queue
is empty or a pass is already running; otherwise run the batch over
the queue snapshot and append the newly found unique numbers to the
session result set. -/
def processAll (s : AppState) : AppState :=
  if s.files.length = 0 ∨ s.isProcessing = true then s
  else
    let fa := runBatch s.extractedNumbers s.files []
    { s with files := fa.1,
             extractedNumbers := s.extractedNumbers ++ fa.2,
             isProcessing := false }

/-- Embedding of `handleDownload` from `src/App.tsx` (lines 113-133):
no-op on an empty result set; otherwise generate the CSV for the
current result set, record a history entry holding the exact exported
content (keeping the five most recent entries), and advance the export
counter.  `now` models `Date.now()`. -/
def handleDownload (s : AppState) (now : Nat) : AppState :=
  if s.extractedNumbers.length = 0 then s
  else
    let nextCount := s.downloadCount + 1
    let filename := toString nextCount ++ ".csv"
    let csvContent := generateCSV (s.extractedNumbers.map (fun n => n.formatted))
    let historyItem : DownloadHistory :=
      { filename := filename, timestamp := now,
        count := s.extractedNumbers.length, data := csvContent }
    { s with history := (historyItem :: s.history).take 5,
             downloadCount := nextCount }

/-- Embedding of `clearAll` from `src/App.tsx` (lines 135-139): reset
the upload queue, the result set, and the processing flag; `history`
and `downloadCount` are not touched. -/
def clearAll (s : AppState) : AppState :=
  { s with files := [], extractedNumbers := [], isProcessing := false }

/-! ### Properties of the deduplication step -/

theorem mem_dedupAux (y : String) :
    ∀ (l seen : List String), y ∈ dedupAux seen l ↔ y ∈ l ∧ y ∉ seen := by
  intro l
  induction l with
  | nil => intro seen; simp [dedupAux]
  | cons x xs ih =>
    intro seen
    by_cases hx : x ∈ seen
    · rw [show dedupAux seen (x :: xs) = dedupAux seen xs by
        simp [dedupAux, if_pos hx], ih seen]
      simp only [List.mem_cons]
      constructor
      · rintro ⟨h1, h2⟩; exact ⟨Or.inr h1, h2⟩
      · rintro ⟨rfl | h1, h2⟩
        · exact absurd hx h2
        · exact ⟨h1, h2⟩
    · rw [show dedupAux seen (x :: xs) = x :: dedupAux (x :: seen) xs by
        simp [dedupAux, if_neg hx]]
      simp only [List.mem_cons, ih (x :: seen)]
      constructor
      · rintro (rfl | ⟨h1, h2⟩)
        · exact ⟨Or.inl rfl, hx⟩
        · refine ⟨Or.inr h1, fun hc => h2 (Or.inr hc)⟩
      · rintro ⟨rfl | h1, h2⟩
        · exact Or.inl rfl
        · by_cases hyx : y = x
          · exact Or.inl hyx
          · refine Or.inr ⟨h1, fun hc => ?_⟩
            rcases hc with h3 | h3
            · exact hyx h3
            · exact h2 h3

theorem nodup_dedupAux : ∀ (l seen : List String), (dedupAux seen l).Nodup := by
  intro l
  induction l with
  | nil => intro seen; simp [dedupAux]
  | cons x xs ih =>
    intro seen
    by_cases hx : x ∈ seen
    · rw [show dedupAux seen (x :: xs) = dedupAux seen xs by
        simp [dedupAux, if_pos hx]]
      exact ih seen
    · rw [show dedupAux seen (x :: xs) = x :: dedupAux (x :: seen) xs by
        simp [dedupAux, if_neg hx]]
      refine List.nodup_cons.mpr ⟨?_, ih (x :: seen)⟩
      intro hc
      exact ((mem_dedupAux x xs (x :: seen)).mp hc).2 (List.mem_cons_self x seen)

theorem mem_dedupFirst (y : String) (l : List String) :
    y ∈ dedupFirst l ↔ y ∈ l := by
  simp [dedupFirst, mem_dedupAux]

theorem nodup_dedupFirst (l : List String) : (dedupFirst l).Nodup :=
  nodup_dedupAux l []

/-! ### The matcher consumes input -/

theorem orElse_eq_some_cases {α : Type} (o : Option α) (f : Unit → Option α)
    (x : α) (h : o.orElse f = some x) : o = some x ∨ f () = some x := by
  cases o with
  | none => right; simpa [Option.orElse] using h
  | some y => left; simpa [Option.orElse] using h

theorem trySepDigits_length :
    ∀ (k : Nat) (cs cap r : List Char),
      trySepDigits k cs = some (cap, r) → r.length ≤ cs.length := by
  intro k
  induction k with
  | zero =>
    intro cs cap r h
    simp only [trySepDigits, Option.some.injEq, Prod.mk.injEq] at h
    rw [← h.2]
  | succ k ih =>
    intro cs cap r h
    match cs with
    | [] => simp [trySepDigits] at h
    | c :: cs1 =>
      simp only [trySepDigits] at h
      split at h
      · split at h
        · simp at h
        · split at h
          · rw [Option.map_eq_some'] at h
            obtain ⟨⟨cap2, r2⟩, h2, heq⟩ := h
            simp only [Prod.mk.injEq] at heq
            obtain ⟨-, rfl⟩ := heq
            have := ih _ _ _ h2
            simp only [List.length_cons]
            omega
          · simp at h
      · split at h
        · rw [Option.map_eq_some'] at h
          obtain ⟨⟨cap2, r2⟩, h2, heq⟩ := h
          simp only [Prod.mk.injEq] at heq
          obtain ⟨-, rfl⟩ := heq
          have := ih _ _ _ h2
          simp only [List.length_cons]
          omega
        · simp at h

theorem tryCapture_length (cs cap r : List Char) :
    tryCapture cs = some (cap, r) → r.length < cs.length := by
  intro h
  match cs with
  | [] => simp [tryCapture] at h
  | c :: cs1 =>
    simp only [tryCapture] at h
    split at h
    · rcases Option.map_eq_some'.mp h with ⟨⟨cap2, r2⟩, h2, heq⟩
      simp only [Prod.mk.injEq] at heq
      rcases heq with ⟨-, rfl⟩
      have := trySepDigits_length 9 cs1 cap2 _ h2
      simp only [List.length_cons]
      omega
    · simp at h

theorem afterCC_length (cs cap r : List Char) :
    afterCC cs = some (cap, r) → r.length < cs.length := by
  intro h
  match cs with
  | [] => simp [afterCC] at h
  | c :: cs1 =>
    simp only [afterCC] at h
    split at h
    · rcases orElse_eq_some_cases _ _ _ h with h1 | h1
      · have := tryCapture_length cs1 cap r h1
        simp only [List.length_cons]; omega
      · exact tryCapture_length _ cap r h1
    · exact tryCapture_length _ cap r h

theorem ccRest?_length (cs rest : List Char) :
    ccRest? cs = some rest → rest.length < cs.length := by
  intro h
  unfold ccRest? at h
  split at h <;> simp_all <;> omega

theorem tryMatchAt_length (cs cap r : List Char) :
    tryMatchAt cs = some (cap, r) → r.length < cs.length := by
  intro h
  unfold tryMatchAt at h
  split at h
  case _ rest hcc =>
    rcases orElse_eq_some_cases _ _ _ h with h1 | h1
    · have h2 := afterCC_length rest cap r h1
      have h3 := ccRest?_length cs rest hcc
      omega
    · exact tryCapture_length cs cap r h1
  case _ => exact tryCapture_length cs cap r h

/-! ### Fuel irrelevance of the scan -/

theorem scanAux_fuel_succ :
    ∀ (fuel : Nat) (cs : List Char), cs.length ≤ fuel →
      scanAux (fuel + 1) cs = scanAux fuel cs := by
  intro fuel
  induction fuel with
  | zero =>
    intro cs h
    have : cs = [] := List.length_eq_zero.mp (Nat.le_zero.mp h)
    subst this
    rfl
  | succ fuel ih =>
    intro cs h
    match cs with
    | [] => rfl
    | c :: rest =>
      simp only [scanAux]
      cases hm : tryMatchAt (c :: rest) with
      | some pr =>
        have hlt := tryMatchAt_length (c :: rest) pr.1 pr.2 (by rw [hm])
        simp only [List.length_cons] at h hlt
        dsimp only
        rw [ih pr.2 (by omega)]
      | none =>
        simp only [List.length_cons] at h
        dsimp only
        rw [ih rest (by omega)]

theorem scanAux_fuel_add (k : Nat) :
    ∀ (fuel : Nat) (cs : List Char), cs.length ≤ fuel →
      scanAux (fuel + k) cs = scanAux fuel cs := by
  induction k with
  | zero => intro fuel cs _; rfl
  | succ k ih =>
    intro fuel cs h
    have h1 : fuel + (k + 1) = (fuel + k) + 1 := by omega
    rw [h1, scanAux_fuel_succ (fuel + k) cs (by omega), ih fuel cs h]

theorem scanAux_fuel_eq (f g : Nat) (cs : List Char)
    (hf : cs.length ≤ f) (hg : cs.length ≤ g) :
    scanAux f cs = scanAux g cs := by
  rcases Nat.le_total f g with hle | hle
  · obtain ⟨k, rfl⟩ := Nat.exists_eq_add_of_le hle
    rw [scanAux_fuel_add k f cs hf]
  · obtain ⟨k, rfl⟩ := Nat.exists_eq_add_of_le hle
    rw [scanAux_fuel_add k g cs hg]

/-! ### Shape of the captures -/

theorem mem_scanAux :
    ∀ (fuel : Nat) (cs cap : List Char), cap ∈ scanAux fuel cs →
      ∃ cs1 r, tryMatchAt cs1 = some (cap, r) := by
  intro fuel
  induction fuel with
  | zero => intro cs cap h; simp [scanAux] at h
  | succ fuel ih =>
    intro cs cap h
    match cs with
    | [] => simp [scanAux] at h
    | c :: rest =>
      simp only [scanAux] at h
      revert h
      cases hm : tryMatchAt (c :: rest) with
      | some pr =>
        intro h
        dsimp only at h
        rcases List.mem_cons.mp h with rfl | h1
        · exact ⟨c :: rest, pr.2, by rw [hm]⟩
        · exact ih pr.2 cap h1
      | none => intro h; dsimp only at h; exact ih rest cap h

theorem tryCapture_shape (cs cap r : List Char)
    (h : tryCapture cs = some (cap, r)) :
    ∃ c tl, cap = c :: tl ∧ isLeadC c = true := by
  match cs with
  | [] => simp [tryCapture] at h
  | c :: cs1 =>
    simp only [tryCapture] at h
    split at h
    case isTrue hlead =>
      rw [Option.map_eq_some'] at h
      obtain ⟨⟨cap2, r2⟩, _, heq⟩ := h
      simp only [Prod.mk.injEq] at heq
      exact ⟨c, cap2, heq.1.symm, hlead⟩
    case isFalse => simp at h

theorem tryMatchAt_is_capture (cs cap r : List Char)
    (h : tryMatchAt cs = some (cap, r)) :
    ∃ cs1, tryCapture cs1 = some (cap, r) := by
  unfold tryMatchAt at h
  split at h
  case _ rest _ =>
    rcases orElse_eq_some_cases _ _ _ h with h1 | h1
    · unfold afterCC at h1
      split at h1
      · simp at h1
      · split at h1
        · rcases orElse_eq_some_cases _ _ _ h1 with h2 | h2
          · exact ⟨_, h2⟩
          · exact ⟨_, h2⟩
        · exact ⟨_, h1⟩
    · exact ⟨_, h1⟩
  case _ => exact ⟨_, h⟩

theorem mem_captures_shape (text : String) (cap : List Char)
    (h : cap ∈ captures text) :
    ∃ c tl, cap = c :: tl ∧ isLeadC c = true := by
  obtain ⟨cs1, r, h1⟩ := mem_scanAux _ _ _ h
  obtain ⟨cs2, h2⟩ := tryMatchAt_is_capture cs1 cap r h1
  exact tryCapture_shape cs2 cap r h2

/-! ### Repetitions of one valid number -/

/-- The digit characters of the running example number `9656501307`. -/
def exampleDigits : List Char := ['9', '6', '5', '6', '5', '0', '1', '3', '0', '7']

/-- One occurrence of the example number followed by a space. -/
def chunk : List Char := exampleDigits ++ [' ']

/-- A text that contains the example valid number exactly `N` times
(each occurrence followed by a single space). -/
def repText (N : Nat) : String := String.mk (List.flatten (List.replicate N chunk))

theorem scanAux_nil (f : Nat) : scanAux f [] = [] := by
  cases f <;> rfl

theorem scanAux_chunk_step (m : Nat) (t : List Char) :
    scanAux (m + 2) (chunk ++ t) = exampleDigits :: scanAux m t := by
  have h1 : tryMatchAt (chunk ++ t) = some (exampleDigits, ' ' :: t) := rfl
  have h2 : tryMatchAt (' ' :: t) = none := rfl
  show scanAux ((m + 1) + 1)
      ('9' :: (['6', '5', '6', '5', '0', '1', '3', '0', '7', ' '] ++ t)) = _
  simp only [scanAux]
  rw [show tryMatchAt ('9' :: (['6', '5', '6', '5', '0', '1', '3', '0', '7', ' '] ++ t))
        = some (exampleDigits, ' ' :: t) from h1]
  dsimp only
  simp only [scanAux]
  rw [h2]

theorem scan_repChunk :
    ∀ (N f : Nat), 2 * N ≤ f →
      scanAux f (List.flatten (List.replicate N chunk)) = List.replicate N exampleDigits := by
  intro N
  induction N with
  | zero => intro f _; simp [scanAux_nil]
  | succ N ih =>
    intro f hf
    obtain ⟨m, rfl⟩ : ∃ m, f = m + 2 := ⟨f - 2, by omega⟩
    rw [List.replicate_succ, List.flatten_cons, scanAux_chunk_step,
      ih m (by omega), List.replicate_succ]

theorem extract_repText (N : Nat) (h : 1 ≤ N) :
    extractAndFormatNumbers (repText N) = ["919656501307"] := by
  have hlist : (repText N).toList = List.flatten (List.replicate N chunk) := rfl
  have hlen : (List.flatten (List.replicate N chunk)).length = 11 * N := by
    rw [List.length_flatten]
    simp only [List.map_replicate, List.sum_replicate, smul_eq_mul]
    rw [show chunk.length = 11 from rfl]
    omega
  have hscan : captures (repText N) = List.replicate N exampleDigits := by
    unfold captures
    rw [hlist, hlen]
    exact scan_repChunk N (11 * N) (by omega)
  have hfm : ∀ n, List.filterMap formatCapture (List.replicate n exampleDigits)
      = List.replicate n "919656501307" := by
    intro n
    induction n with
    | zero => rfl
    | succ n ihn =>
      rw [List.replicate_succ,
        List.filterMap_cons_some
          (show formatCapture exampleDigits = some "919656501307" from rfl),
        ihn, List.replicate_succ]
  have hded : ∀ n (seen : List String), "919656501307" ∈ seen →
      dedupAux seen (List.replicate n "919656501307") = [] := by
    intro n
    induction n with
    | zero => intro seen _; rfl
    | succ n ihn =>
      intro seen hs
      rw [List.replicate_succ]
      simp only [dedupAux, if_pos hs]
      exact ihn seen hs
  obtain ⟨n, rfl⟩ : ∃ n, N = n + 1 := ⟨N - 1, by omega⟩
  unfold extractAndFormatNumbers
  rw [hscan, hfm (n + 1), List.replicate_succ]
  unfold dedupFirst
  simp only [dedupAux, List.not_mem_nil, if_false]
  rw [hded n ["919656501307"] (List.mem_cons_self _ _)]

/-! ### The session-wide uniqueness invariant -/

/-- Canonical (formatted) forms pairwise distinct within a list of
extracted numbers. -/
def FormattedNodup (l : List ExtractedNumber) : Prop :=
  (l.map (fun n => n.formatted)).Nodup

/-- Every formatted form in `acc` is absent from `known`. -/
def FreshFor (known acc : List ExtractedNumber) : Prop :=
  ∀ x ∈ acc, ∀ y ∈ known, x.formatted ≠ y.formatted

theorem addNumber_inv (known : List ExtractedNumber) (fname num : String)
    (acc : List ExtractedNumber) (h1 : FormattedNodup acc) (h2 : FreshFor known acc) :
    FormattedNodup (addNumber known fname acc num) ∧
      FreshFor known (addNumber known fname acc num) := by
  unfold addNumber
  split
  · exact ⟨h1, h2⟩
  case isFalse hcond =>
    rw [Bool.not_eq_true, Bool.or_eq_false_iff] at hcond
    obtain ⟨ha, hk⟩ := hcond
    have ha2 : ∀ x ∈ acc, x.formatted ≠ num := by
      intro x hx heq
      have : (acc.find? fun n => n.formatted == num).isSome = true :=
        List.find?_isSome.mpr ⟨x, hx, by simp [heq]⟩
      rw [ha] at this
      exact Bool.false_ne_true this
    have hk2 : ∀ y ∈ known, y.formatted ≠ num := by
      intro y hy heq
      have : (known.find? fun n => n.formatted == num).isSome = true :=
        List.find?_isSome.mpr ⟨y, hy, by simp [heq]⟩
      rw [hk] at this
      exact Bool.false_ne_true this
    constructor
    · unfold FormattedNodup
      rw [List.map_append]
      refine List.Nodup.append h1 (List.nodup_singleton _) ?_
      intro a hma hmb
      simp only [List.map_cons, List.map_nil, List.mem_singleton] at hmb
      subst hmb
      obtain ⟨x, hx, hfx⟩ := List.mem_map.mp hma
      exact ha2 x hx hfx
    · intro x hx y hy
      rcases List.mem_append.mp hx with hx1 | hx1
      · exact h2 x hx1 y hy
      · simp only [List.mem_singleton] at hx1
        subst hx1
        simpa using fun heq => hk2 y hy heq.symm

theorem foldl_addNumber_inv (known : List ExtractedNumber) (fname : String) :
    ∀ (nums : List String) (acc : List ExtractedNumber),
      FormattedNodup acc → FreshFor known acc →
      FormattedNodup (nums.foldl (addNumber known fname) acc) ∧
        FreshFor known (nums.foldl (addNumber known fname) acc) := by
  intro nums
  induction nums with
  | nil => intro acc h1 h2; exact ⟨h1, h2⟩
  | cons num rest ih =>
    intro acc h1 h2
    rw [List.foldl_cons]
    obtain ⟨h3, h4⟩ := addNumber_inv known fname num acc h1 h2
    exact ih _ h3 h4

theorem processItem_inv (known acc : List ExtractedNumber) (f : ProcessingFile)
    (h1 : FormattedNodup acc) (h2 : FreshFor known acc) :
    FormattedNodup (processItem known acc f).2 ∧
      FreshFor known (processItem known acc f).2 := by
  unfold processItem
  split
  · exact ⟨h1, h2⟩
  · split
    · exact ⟨h1, h2⟩
    · exact foldl_addNumber_inv known f.name _ acc h1 h2

theorem runBatch_inv (known : List ExtractedNumber) :
    ∀ (files : List ProcessingFile) (acc : List ExtractedNumber),
      FormattedNodup acc → FreshFor known acc →
      FormattedNodup (runBatch known files acc).2 ∧
        FreshFor known (runBatch known files acc).2 := by
  intro files
  induction files with
  | nil => intro acc h1 h2; exact ⟨h1, h2⟩
  | cons f fs ih =>
    intro acc h1 h2
    simp only [runBatch]
    obtain ⟨h3, h4⟩ := processItem_inv known acc f h1 h2
    exact ih _ h3 h4

theorem processAll_extractedNumbers (s : AppState) :
    processAll s = s ∨
      (processAll s).extractedNumbers
        = s.extractedNumbers ++ (runBatch s.extractedNumbers s.files []).2 := by
  unfold processAll
  split
  · left; rfl
  · right; rfl

theorem processAll_preserves_FormattedNodup (s : AppState)
    (h : FormattedNodup s.extractedNumbers) :
    FormattedNodup (processAll s).extractedNumbers := by
  rcases processAll_extractedNumbers s with heq | heq
  · rw [heq]; exact h
  · rw [heq]
    obtain ⟨h1, h2⟩ := runBatch_inv s.extractedNumbers s.files []
      (by simp [FormattedNodup]) (by intro x hx; simp at hx)
    unfold FormattedNodup
    rw [List.map_append]
    refine List.Nodup.append h h1 ?_
    intro a hma hmb
    obtain ⟨y, hy, hfy⟩ := List.mem_map.mp hma
    obtain ⟨x, hx, hfx⟩ := List.mem_map.mp hmb
    exact h2 x hx y hy (hfx.trans hfy.symm)

/-! ### CSV row structure -/

/-- One data row of the exported CSV: the 1-based sequential index of
the number (`i` is the 0-based position) followed by the number. -/
def csvRow (i : Nat) (num : String) : String :=
  toString (i + 1) ++ "," ++ num ++ "\n"

/-- The data rows for a list of numbers starting at 0-based position `i`. -/
def csvRows : Nat → List String → String
  | _, [] => ""
  | i, num :: rest => csvRow i num ++ csvRows (i + 1) rest

theorem foldl_csvStep (l : List String) :
    ∀ (pre : String) (i : Nat),
      (l.foldl csvStep (pre, i)).1 = pre ++ csvRows i l := by
  induction l with
  | nil =>
    intro pre i
    rw [List.foldl_nil]
    exact (String.append_empty pre).symm
  | cons num rest ih =>
    intro pre i
    rw [List.foldl_cons]
    show (rest.foldl csvStep
      (pre ++ toString (i + 1) ++ "," ++ num ++ "\n", i + 1)).1 = _
    rw [ih (pre ++ toString (i + 1) ++ "," ++ num ++ "\n") (i + 1),
      show csvRows i (num :: rest) = csvRow i num ++ csvRows (i + 1) rest from rfl]
    unfold csvRow
    simp only [String.append_assoc]

theorem generateCSV_rows (numbers : List String) :
    generateCSV numbers = "Number,Phone Number\n" ++ csvRows 0 numbers :=
  foldl_csvStep numbers "Number,Phone Number\n" 0

/-! ### Export and batch bookkeeping -/

theorem handleDownload_extractedNumbers (s : AppState) (now : Nat) :
    (handleDownload s now).extractedNumbers = s.extractedNumbers := by
  unfold handleDownload
  split <;> rfl

theorem handleDownload_of_nonempty (s : AppState) (now : Nat)
    (h : s.extractedNumbers ≠ []) :
    handleDownload s now =
      { s with
        history :=
          ({ filename := toString (s.downloadCount + 1) ++ ".csv",
             timestamp := now,
             count := s.extractedNumbers.length,
             data := generateCSV (s.extractedNumbers.map (fun n => n.formatted)) }
            :: s.history).take 5,
        downloadCount := s.downloadCount + 1 } := by
  unfold handleDownload
  rw [if_neg]
  intro hc
  exact h (List.length_eq_zero.mp hc)

/-- Repeated exports: fold `handleDownload` over a list of `Date.now()`
values. -/
def exportMany (s : AppState) : List Nat → AppState
  | [] => s
  | t :: ts => exportMany (handleDownload s t) ts

theorem exportMany_downloadCount (ts : List Nat) :
    ∀ (s : AppState), s.extractedNumbers ≠ [] →
      (exportMany s ts).downloadCount = s.downloadCount + ts.length := by
  induction ts with
  | nil => intro s _; rfl
  | cons t ts ih =>
    intro s h
    show (exportMany (handleDownload s t) ts).downloadCount = _
    have hpres : (handleDownload s t).extractedNumbers ≠ [] := by
      rw [handleDownload_extractedNumbers]; exact h
    rw [ih (handleDownload s t) hpres,
      handleDownload_of_nonempty s t h]
    simp only [List.length_cons]
    omega

theorem exportMany_history_bound (ts : List Nat) :
    ∀ (s : AppState), s.history.length ≤ 5 →
      (exportMany s ts).history.length ≤ 5 := by
  induction ts with
  | nil => intro s h; exact h
  | cons t ts ih =>
    intro s h
    show (exportMany (handleDownload s t) ts).history.length ≤ 5
    refine ih (handleDownload s t) ?_
    unfold handleDownload
    split
    · exact h
    · simp only [List.length_take]
      omega

theorem mem_foldl_addNumber (known : List ExtractedNumber) (fname : String) :
    ∀ (nums : List String) (acc : List ExtractedNumber) (x : ExtractedNumber),
      x ∈ nums.foldl (addNumber known fname) acc →
      x ∈ acc ∨ x.sourceImage = fname := by
  intro nums
  induction nums with
  | nil => intro acc x h; exact Or.inl h
  | cons num rest ih =>
    intro acc x h
    rw [List.foldl_cons] at h
    rcases ih _ x h with h1 | h1
    · unfold addNumber at h1
      split at h1
      · exact Or.inl h1
      · rcases List.mem_append.mp h1 with h2 | h2
        · exact Or.inl h2
        · simp only [List.mem_singleton] at h2
          subst h2
          exact Or.inr rfl
    · exact Or.inr h1

theorem processItem_mem (known acc : List ExtractedNumber) (f : ProcessingFile)
    (x : ExtractedNumber) (h : x ∈ (processItem known acc f).2) :
    x ∈ acc ∨ (x.sourceImage = f.name ∧ f.status ≠ FileStatus.completed ∧
      f.ocrResult ≠ none) := by
  unfold processItem at h
  split at h
  case isTrue => exact Or.inl h
  case isFalse hst =>
    revert h
    cases hocr : f.ocrResult with
    | none => intro h; exact Or.inl h
    | some text =>
      intro h
      dsimp only at h
      rcases mem_foldl_addNumber known f.name _ acc x h with h1 | h1
      · exact Or.inl h1
      · exact Or.inr ⟨h1, hst, Option.some_ne_none text⟩

theorem runBatch_mem (known : List ExtractedNumber) :
    ∀ (files : List ProcessingFile) (acc : List ExtractedNumber)
      (x : ExtractedNumber), x ∈ (runBatch known files acc).2 →
      x ∈ acc ∨ ∃ f ∈ files, x.sourceImage = f.name ∧
        f.status ≠ FileStatus.completed ∧ f.ocrResult ≠ none := by
  intro files
  induction files with
  | nil => intro acc x h; exact Or.inl h
  | cons f fs ih =>
    intro acc x h
    simp only [runBatch] at h
    rcases ih _ x h with h1 | ⟨f2, hf2, h2⟩
    · rcases processItem_mem known acc f x h1 with h2 | h2
      · exact Or.inl h2
      · exact Or.inr ⟨f, List.mem_cons_self f fs, h2⟩
    · exact Or.inr ⟨f2, List.mem_cons_of_mem f hf2, h2⟩

/-! ### Shared concrete states -/

/-- A freshly uploaded queue item, as created by `handleFileUpload`
(`status: 'pending', progress: 0`), whose preprocess/OCR outcome is
`text`. -/
def pendingFile (name : String) (text : Option String) : ProcessingFile :=
  { name := name, ocrResult := text, status := FileStatus.pending,
    progress := 0, rawText := none, error := none }

/-- The canonical example entry `919656501307`, attributed to
`img1.jpg`. -/
def exampleEntry : ExtractedNumber :=
  { original := "919656501307", formatted := "919656501307",
    sourceImage := "img1.jpg" }

/-- A session that already holds `919656501307` and queues one new
image whose OCR text contains `9656501307` again. -/
def dupBatchState : AppState :=
  { files := [pendingFile "img2.jpg" (some "9656501307")],
    isProcessing := false, extractedNumbers := [exampleEntry],
    history := [], downloadCount := 0 }

/-- A fresh session queueing two images that both contain the same
valid number. -/
def twoImageState : AppState :=
  { files := [pendingFile "img1.jpg" (some "9656501307"),
              pendingFile "img3.jpg" (some "9656501307")],
    isProcessing := false, extractedNumbers := [],
    history := [], downloadCount := 0 }

/-! ### The claims -/

/-- Claim C1: for each of the input texts `9656 50 1307`,
`+91 9656501307`, `09656501307`, and `9656501307`, the number matcher
`extractAndFormatNumbers` returns exactly the one canonical output
`919656501307`. -/
theorem c1_canonical_form_determinism :
    extractAndFormatNumbers "9656 50 1307" = ["919656501307"] ∧
    extractAndFormatNumbers "+91 9656501307" = ["919656501307"] ∧
    extractAndFormatNumbers "09656501307" = ["919656501307"] ∧
    extractAndFormatNumbers "9656501307" = ["919656501307"] :=
  ⟨rfl, rfl, rfl, rfl⟩

/-- Claim C2: after any batch run the canonical (formatted) forms in
the session result set stay pairwise distinct, and if the session
already holds `919656501307`, a new batch whose OCR text contains
`9656501307` adds zero new entries. -/
theorem c2_cross_batch_uniqueness :
    (∀ s : AppState, FormattedNodup s.extractedNumbers →
      FormattedNodup (processAll s).extractedNumbers) ∧
    (processAll dupBatchState).extractedNumbers = dupBatchState.extractedNumbers :=
  ⟨processAll_preserves_FormattedNodup, by decide⟩

/-- Witness for C2: the pairwise-distinctness hypothesis holds at the
concrete state `dupBatchState` and the theorem applies there. -/
theorem c2_cross_batch_uniqueness_witness :
    FormattedNodup dupBatchState.extractedNumbers ∧
      FormattedNodup (processAll dupBatchState).extractedNumbers :=
  ⟨by unfold FormattedNodup; decide,
   c2_cross_batch_uniqueness.1 dupBatchState (by unfold FormattedNodup; decide)⟩

/-- Claim C3: a text repeating the same valid number N times (N ≥ 1)
yields exactly one canonical entry; the matcher output is always
duplicate-free; and a number appearing in two images of one batch is
recorded once, attributed to the first-processed source. -/
theorem c3_dedup_idempotence :
    (∀ N : Nat, 1 ≤ N → extractAndFormatNumbers (repText N) = ["919656501307"]) ∧
    (∀ text : String, (extractAndFormatNumbers text).Nodup) ∧
    (processAll twoImageState).extractedNumbers =
      [{ original := "919656501307", formatted := "919656501307",
         sourceImage := "img1.jpg" }] :=
  ⟨extract_repText, fun _ => nodup_dedupFirst _, by decide⟩

/-- Witness for C3: the repetition theorem applies at N = 3. -/
theorem c3_dedup_idempotence_witness :
    1 ≤ 3 ∧ extractAndFormatNumbers (repText 3) = ["919656501307"] :=
  ⟨by decide, c3_dedup_idempotence.1 3 (by decide)⟩

theorem formatCapture_eq_some (cap : List Char) (r : String) :
    formatCapture cap = some r ↔
      (cap.filter isDigitC).length = 10 ∧
        r = "91" ++ String.mk (cap.filter isDigitC) := by
  show (if (cap.filter isDigitC).length = 10
      then some ("91" ++ String.mk (cap.filter isDigitC)) else none) = some r ↔ _
  split
  case isTrue h => simp only [Option.some.injEq, h, true_and]; exact eq_comm
  case isFalse h => simp [h]

/-- Claim C4: `1234567890` never matches; a string is in the matcher
output exactly when it is `91` plus the stripped digits of a capture
stripping to exactly 10 digits (9 or 11 digits yield no result); and
every capture begins with a digit in {6,7,8,9}. -/
theorem c4_leading_digit_and_length_filter :
    extractAndFormatNumbers "1234567890" = [] ∧
    (∀ (text r : String),
      r ∈ extractAndFormatNumbers text ↔
        ∃ cap ∈ captures text, (cap.filter isDigitC).length = 10 ∧
          r = "91" ++ String.mk (cap.filter isDigitC)) ∧
    (∀ (text : String) (cap : List Char), cap ∈ captures text →
      ∃ c tl, cap = c :: tl ∧ (c = '6' ∨ c = '7' ∨ c = '8' ∨ c = '9')) := by
  refine ⟨rfl, ?_, ?_⟩
  · intro text r
    unfold extractAndFormatNumbers
    rw [mem_dedupFirst, List.mem_filterMap]
    constructor
    · rintro ⟨cap, hm, hf⟩
      exact ⟨cap, hm, (formatCapture_eq_some cap r).mp hf⟩
    · rintro ⟨cap, hm, hf⟩
      exact ⟨cap, hm, (formatCapture_eq_some cap r).mpr hf⟩
  · intro text cap h
    obtain ⟨c, tl, hcap, hlead⟩ := mem_captures_shape text cap h
    refine ⟨c, tl, hcap, ?_⟩
    simpa [isLeadC, or_assoc] using hlead

/-- Witness for C4: the membership characterization applies at the
concrete text `9656501307` and output `919656501307`. -/
theorem c4_leading_digit_and_length_filter_witness :
    "919656501307" ∈ extractAndFormatNumbers "9656501307" ∧
      ∃ cap ∈ captures "9656501307", (cap.filter isDigitC).length = 10 ∧
        "919656501307" = "91" ++ String.mk (cap.filter isDigitC) :=
  ⟨by decide,
   (c4_leading_digit_and_length_filter.2.1 "9656501307" "919656501307").mp
     (by decide)⟩

/-- Counterexample to claim C5 as stated: the application's only clear
operation, `clearAll` (the code location the claim cites), does NOT
leave the session result set unchanged — it empties it. -/
theorem c5_clear_counterexample :
    (clearAll dupBatchState).extractedNumbers = [] ∧
      dupBatchState.extractedNumbers ≠ [] :=
  ⟨rfl, by decide⟩

/-- Amended claim C5: `clearAll` is the explicit full reset — it clears
the upload queue and the result set together (leaving history and the
counter untouched); an `ExtractedNumber` survives every other
operation: `processAll` only appends to the result set and
`handleDownload` leaves it unchanged. -/
theorem c5_clear_is_full_reset (s : AppState) (now : Nat) :
    (clearAll s).files = [] ∧
    (clearAll s).extractedNumbers = [] ∧
    (clearAll s).history = s.history ∧
    (∃ t, (processAll s).extractedNumbers = s.extractedNumbers ++ t) ∧
    (handleDownload s now).extractedNumbers = s.extractedNumbers := by
  refine ⟨rfl, rfl, rfl, ?_, handleDownload_extractedNumbers s now⟩
  rcases processAll_extractedNumbers s with h | h
  · exact ⟨[], by rw [h, List.append_nil]⟩
  · exact ⟨_, h⟩

theorem handleDownload_of_empty (s : AppState) (now : Nat)
    (h : s.extractedNumbers = []) : handleDownload s now = s := by
  unfold handleDownload
  rw [if_pos]
  rw [h]
  rfl

/-- Claim C6: `generateCSV` is pure and deterministic (witnessed by the
concrete value of the spec's example export); exporting twice without
changing the result set stores byte-identical content; `processAll`
never touches history; and after an export every history record is
either an untouched prior record or the new record holding exactly the
just-exported bytes. -/
theorem c6_export_purity_and_replay :
    generateCSV ["919656501307", "917012345678"]
      = "Number,Phone Number\n1,919656501307\n2,917012345678\n" ∧
    (∀ (s : AppState) (t1 t2 : Nat),
      ((handleDownload (handleDownload s t1) t2).history.head?).map
          (fun rec => rec.data)
        = ((handleDownload s t1).history.head?).map (fun rec => rec.data)) ∧
    (∀ s : AppState, (processAll s).history = s.history) ∧
    (∀ (s : AppState) (t : Nat) (rec : DownloadHistory),
      rec ∈ (handleDownload s t).history →
        rec ∈ s.history ∨
          rec.data = generateCSV (s.extractedNumbers.map (fun n => n.formatted))) := by
  refine ⟨rfl, ?_, ?_, ?_⟩
  · intro s t1 t2
    by_cases h : s.extractedNumbers = []
    · rw [handleDownload_of_empty s t1 h, handleDownload_of_empty s t2 h]
    · rw [handleDownload_of_nonempty s t1 h]
      rw [handleDownload_of_nonempty _ t2 (by exact h)]
      simp only [List.take_succ_cons, List.head?_cons, Option.map_some']
  · intro s
    unfold processAll
    split <;> rfl
  · intro s t rec hmem
    by_cases h : s.extractedNumbers = []
    · rw [handleDownload_of_empty s t h] at hmem
      exact Or.inl hmem
    · rw [handleDownload_of_nonempty s t h] at hmem
      simp only [List.take_succ_cons] at hmem
      rcases List.mem_cons.mp hmem with rfl | hmem2
      · exact Or.inr rfl
      · exact Or.inl (List.take_subset 4 s.history hmem2)

/-- Witness for C6: the history-provenance part applies at a concrete
state whose export produces a record holding the exported bytes. -/
theorem c6_export_purity_and_replay_witness :
    (let s1 := handleDownload dupBatchState 7
     ∃ rec, s1.history = [rec] ∧
       (rec ∈ dupBatchState.history ∨
         rec.data = generateCSV
           (dupBatchState.extractedNumbers.map (fun n => n.formatted)))) := by
  refine ⟨{ filename := "1.csv", timestamp := 7, count := 1,
            data := "Number,Phone Number\n1,919656501307\n" }, by decide, ?_⟩
  exact c6_export_purity_and_replay.2.2.2 dupBatchState 7 _ (by decide)

/-- Claim C7: for every list of numbers (including the empty list) the
generated CSV is the fixed header `Number,Phone Number` followed by
exactly one data row per number, each row carrying the 1-based
sequential index and the number. -/
theorem c7_csv_header_and_rows (numbers : List String) :
    generateCSV numbers = "Number,Phone Number\n" ++ csvRows 0 numbers ∧
    generateCSV [] = "Number,Phone Number\n" :=
  ⟨generateCSV_rows numbers, rfl⟩

/-- Claim C8: every export increments the counter by exactly one and
names the file `{counter}.csv`; the first export of a fresh session is
`1.csv`; and over any run of exports the counter grows by the number
of exports while history stays within its capacity bound of 5. -/
theorem c8_export_counter_and_filename :
    (∀ (s : AppState) (t : Nat), s.extractedNumbers ≠ [] →
      (handleDownload s t).downloadCount = s.downloadCount + 1 ∧
      ((handleDownload s t).history.head?).map (fun rec => rec.filename)
        = some (toString (s.downloadCount + 1) ++ ".csv")) ∧
    (∀ (t : Nat) (nums : List ExtractedNumber), nums ≠ [] →
      ((handleDownload { initialState with extractedNumbers := nums } t).history.head?).map
          (fun rec => rec.filename) = some "1.csv" ∧
      (handleDownload { initialState with extractedNumbers := nums } t).downloadCount = 1) ∧
    (∀ (s : AppState) (ts : List Nat), s.extractedNumbers ≠ [] →
      s.history.length ≤ 5 →
      (exportMany s ts).downloadCount = s.downloadCount + ts.length ∧
      (exportMany s ts).history.length ≤ 5) := by
  refine ⟨?_, ?_, ?_⟩
  · intro s t h
    rw [handleDownload_of_nonempty s t h]
    exact ⟨rfl, by simp only [List.take_succ_cons, List.head?_cons, Option.map_some']⟩
  · intro t nums h
    rw [handleDownload_of_nonempty _ t (by exact h)]
    exact ⟨by simp only [List.take_succ_cons, List.head?_cons, Option.map_some']; rfl, rfl⟩
  · intro s ts h hb
    exact ⟨exportMany_downloadCount ts s h, exportMany_history_bound ts s hb⟩

/-- Witness for C8: the per-export conjunct applies at the concrete
state `dupBatchState`. -/
theorem c8_export_counter_and_filename_witness :
    dupBatchState.extractedNumbers ≠ [] ∧
    (handleDownload dupBatchState 3).downloadCount
      = dupBatchState.downloadCount + 1 ∧
    ((handleDownload dupBatchState 3).history.head?).map (fun rec => rec.filename)
      = some (toString (dupBatchState.downloadCount + 1) ++ ".csv") :=
  ⟨by decide,
   (c8_export_counter_and_filename.1 dupBatchState 3 (by decide)).1,
   (c8_export_counter_and_filename.1 dupBatchState 3 (by decide)).2⟩

/-- Claim C9: in a three-item batch whose second item fails at the
encoding/OCR stage, `processAll` still completes items 1 and 3 and
merges their numbers, marks item 2 `error` with the fixed reason, and
merges nothing from the failed item (every new entry is attributed to
item 1 or item 3). -/
theorem c9_per_item_isolation (name1 name2 name3 t1 t3 : String)
    (E : List ExtractedNumber) (H : List DownloadHistory) (c : Nat) :
    ((processAll
        { files := [pendingFile name1 (some t1), pendingFile name2 none,
                    pendingFile name3 (some t3)],
          isProcessing := false, extractedNumbers := E,
          history := H, downloadCount := c }).files.map (fun f => f.status))
        = [FileStatus.completed, FileStatus.error, FileStatus.completed] ∧
    ((processAll
        { files := [pendingFile name1 (some t1), pendingFile name2 none,
                    pendingFile name3 (some t3)],
          isProcessing := false, extractedNumbers := E,
          history := H, downloadCount := c }).files.map (fun f => f.error))
        = [none, some "Failed to process image", none] ∧
    ((processAll
        { files := [pendingFile name1 (some t1), pendingFile name2 none,
                    pendingFile name3 (some t3)],
          isProcessing := false, extractedNumbers := E,
          history := H, downloadCount := c }).extractedNumbers
      = E ++ ((extractAndFormatNumbers t3).foldl (addNumber E name3)
          ((extractAndFormatNumbers t1).foldl (addNumber E name1) []))) ∧
    (∀ x ∈ (processAll
        { files := [pendingFile name1 (some t1), pendingFile name2 none,
                    pendingFile name3 (some t3)],
          isProcessing := false, extractedNumbers := E,
          history := H, downloadCount := c }).extractedNumbers,
      x ∈ E ∨ x.sourceImage = name1 ∨ x.sourceImage = name3) := by
  have hguard : ¬([pendingFile name1 (some t1), pendingFile name2 none,
      pendingFile name3 (some t3)].length = 0 ∨ (false : Bool) = true) := by
    simp
  refine ⟨?_, ?_, ?_, ?_⟩
  · unfold processAll
    rw [if_neg hguard]
    rfl
  · unfold processAll
    rw [if_neg hguard]
    rfl
  · unfold processAll
    rw [if_neg hguard]
    rfl
  · intro x hx
    unfold processAll at hx
    rw [if_neg hguard] at hx
    simp only at hx
    rcases List.mem_append.mp hx with h1 | h1
    · exact Or.inl h1
    · rcases runBatch_mem E _ [] x h1 with h2 | ⟨f, hf, hsrc, _, hocr⟩
      · simp at h2
      · simp only [List.mem_cons, List.not_mem_nil, or_false] at hf
        rcases hf with rfl | rfl | rfl
        · exact Or.inr (Or.inl hsrc)
        · exact absurd rfl hocr
        · exact Or.inr (Or.inr hsrc)

/-- Witness for C9: the theorem applies at concrete names, texts, and
session state. -/
theorem c9_per_item_isolation_witness :
    ((processAll
        { files := [pendingFile "a.jpg" (some "9656501307"), pendingFile "b.jpg" none,
                    pendingFile "c.jpg" (some "7012345678")],
          isProcessing := false, extractedNumbers := [],
          history := [], downloadCount := 0 }).files.map (fun f => f.status))
        = [FileStatus.completed, FileStatus.error, FileStatus.completed] ∧
    ((processAll
        { files := [pendingFile "a.jpg" (some "9656501307"), pendingFile "b.jpg" none,
                    pendingFile "c.jpg" (some "7012345678")],
          isProcessing := false, extractedNumbers := [],
          history := [], downloadCount := 0 }).files.map (fun f => f.error))
        = [none, some "Failed to process image", none] :=
  ⟨(c9_per_item_isolation "a.jpg" "b.jpg" "c.jpg" "9656501307" "7012345678"
      [] [] 0).1,
   (c9_per_item_isolation "a.jpg" "b.jpg" "c.jpg" "9656501307" "7012345678"
      [] [] 0).2.1⟩

/-- Claim C10: `clearAll` resets only the upload queue, the result set,
and the processing flag; the download history and the export counter
are left unchanged. -/
theorem c10_clearAll_frame (s : AppState) :
    (clearAll s).history = s.history ∧
    (clearAll s).downloadCount = s.downloadCount ∧
    (clearAll s).files = [] ∧
    (clearAll s).extractedNumbers = [] ∧
    (clearAll s).isProcessing = false :=
  ⟨rfl, rfl, rfl, rfl, rfl⟩

end OmniExtract
